import Mathlib

/-!
Verification of the stop-loss progression core of `get_main.py`.

The Python source is shallowly embedded: prices are exact rationals
(the source routes all tick arithmetic through `decimal.Decimal`),
the exchange client is an input oracle (tick size, resting stop
orders, clock), and the engine's outward effects (log messages,
cancel calls, the placed stop order, the throttle-map update) are
returned explicitly instead of performed.
-/

/-- Position side, as classified by `_get_position_side`. -/
inductive Side where
  | LONG
  | SHORT
  | BOTH
deriving DecidableEq

/-- Origin of a resting protective order (`source` field in
`_collect_stop_orders`): a standard open order or a conditional/algo
order. -/
inductive OrderSource where
  | baseOrder
  | algoOrder
deriving DecidableEq

/-- One protective stop order as assembled by `_collect_stop_orders`:
only the fields the progression engine reads are kept. -/
structure StopOrder where
  source : OrderSource
  symbol : String
  positionSide : Side
  otype : String
  stopPrice : ℚ
deriving DecidableEq

/-- Kind of a log message appended to `messages` by
`_auto_step_sl_to_breakeven`; payloads carry the prices that the
source interpolates into the formatted string. -/
inductive MsgKind where
  | gateSkip
  | activationSkip
  | simulated (cur newSl : ℚ)
  | updated (cur newSl : ℚ)
deriving DecidableEq

/-- One log message, tagged with the (symbol, side) key it concerns. -/
structure Msg where
  symbol : String
  side : Side
  kind : MsgKind
deriving DecidableEq

/-- The keyword arguments of `_auto_step_sl_to_breakeven`. -/
structure Config where
  stepPct : ℚ
  minIntervalSec : ℚ
  bufferTicks : ℤ
  dryRun : Bool
  symbolsFilter : Option (List String)
  verbose : Bool
  mode : String
  trailPct : ℚ
  activateProfitPct : ℚ

/-- The per-position fields of the snapshot that the engine reads. -/
structure Position where
  symbol : String
  side : Side
  entry : ℚ
  mark : ℚ

/-- The exchange/clock data observed while processing one position:
the symbol's tick size, the collected stop orders for the key, the
key's last stop-update timestamp (`_last_sl_update_at.get(key, 0.0)`)
and the current time. -/
structure PollEnv where
  tick : ℚ
  orders : List StopOrder
  lastTs : ℚ
  nowTs : ℚ

/-- Everything one iteration of the engine's position loop does:
messages appended, stop orders it attempts to cancel, the stop price
newly placed (if any), and whether `_last_sl_update_at[key]` was set. -/
structure StepOutcome where
  messages : List Msg
  cancels : List StopOrder
  placed : Option ℚ
  throttleUpdated : Bool
deriving DecidableEq

/-- Python's `max` over a non-empty list (`None` on empty). -/
def pyMax : List ℚ → Option ℚ
  | [] => none
  | x :: xs => some (xs.foldl max x)

/-- Python's `min` over a non-empty list (`None` on empty). -/
def pyMin : List ℚ → Option ℚ
  | [] => none
  | x :: xs => some (xs.foldl min x)

/-- `_pick_current_sl_price`: the effective current stop among the
candidates — positive prices only; max for LONG, min for SHORT,
nothing for any other side. -/
def pickCurrentSlPrice (side : Side) (stopOrders : List StopOrder) : Option ℚ :=
  let prices := (stopOrders.map (fun o => o.stopPrice)).filter (fun q => decide (0 < q))
  if prices.isEmpty then none
  else
    match side with
    | Side.LONG => pyMax prices
    | Side.SHORT => pyMin prices
    | Side.BOTH => none

/-- `_normalize_price_floor` given the symbol's cached tick: largest
tick multiple at or below the price (identity when the tick is not
positive, as in the source's `tick <= 0` early return). -/
def normalizePriceFloor (tick p : ℚ) : ℚ :=
  if tick ≤ 0 then p else (⌊p / tick⌋ : ℚ) * tick

/-- `_normalize_price_ceil` given the symbol's cached tick: smallest
tick multiple at or above the price. -/
def normalizePriceCeil (tick p : ℚ) : ℚ :=
  if tick ≤ 0 then p else (⌈p / tick⌉ : ℚ) * tick

/-- `_format_stop_price`: directional rounding of the wire price —
floor for LONG, ceiling otherwise. -/
def formatStopPrice (tick : ℚ) (side : Side) (p : ℚ) : ℚ :=
  match side with
  | Side.LONG => (⌊p / tick⌋ : ℚ) * tick
  | _ => (⌈p / tick⌉ : ℚ) * tick

/-- The order payload `_place_stop_market_close_position` submits. -/
structure PlacedOrder where
  orderSide : String
  positionSide : Side
  otype : String
  stopPrice : ℚ
  closePosition : Bool
  workingType : String
deriving DecidableEq

/-- `_place_stop_market_close_position`: SELL for LONG, BUY for SHORT,
an empty result (no exchange call) for any other side. -/
def placeStopMarketClosePosition (tick : ℚ) (positionSide : Side) (stopPrice : ℚ) :
    Option PlacedOrder :=
  match positionSide with
  | Side.LONG =>
      some ⟨"SELL", Side.LONG, "STOP_MARKET", formatStopPrice tick Side.LONG stopPrice,
        true, "MARK_PRICE"⟩
  | Side.SHORT =>
      some ⟨"BUY", Side.SHORT, "STOP_MARKET", formatStopPrice tick Side.SHORT stopPrice,
        true, "MARK_PRICE"⟩
  | Side.BOTH => none

/-- The loop-top filter `if symbols_filter and symbol not in symbols_filter`
(an empty filter set is falsy in the source and filters nothing). -/
def filteredOut (filt : Option (List String)) (symbol : String) : Bool :=
  match filt with
  | none => false
  | some l => !l.isEmpty && !(l.contains symbol)

/-- Python's `str.strip()`: drop leading and trailing whitespace
(executable char-list form). -/
def pyStrip (s : String) : String :=
  String.mk (((s.data.dropWhile Char.isWhitespace).reverse.dropWhile Char.isWhitespace).reverse)

/-- ASCII lowering of one character, as Python's `str.lower()` acts on
the ASCII option strings involved here. -/
def asciiLowerChar (c : Char) : Char :=
  if 'A' ≤ c ∧ c ≤ 'Z' then Char.ofNat (c.toNat + 32) else c

/-- Python's `str.lower()` over the ASCII mode strings. -/
def pyLower (s : String) : String :=
  String.mk (s.data.map asciiLowerChar)

/-- The source's `mode = (mode or "").strip().lower()` followed by the
membership test in `{"lock_profit", "lock-profit"}`. -/
def modeIsLockProfit (mode : String) : Bool :=
  let m := pyLower (pyStrip mode)
  m == "lock_profit" || m == "lock-profit"

/-- The skip guard at the bottom of the loop body: an existing positive
stop whose distance to the computed stop is under one tick leaves the
orders untouched. -/
def skipGuard (tick : ℚ) (currentSl : Option ℚ) (newSl : ℚ) : Bool :=
  match currentSl with
  | some c => if 0 < c ∧ |newSl - c| < tick then true else false
  | none => false

/-- The common tail of the loop body: the sub-tick guard, then either
the dry-run log line or the cancel-all-then-place write path, both of
which record the throttle timestamp. -/
def finishReplace (cfg : Config) (pos : Position) (env : PollEnv)
    (currentSl : Option ℚ) (newSl : ℚ) : StepOutcome :=
  if skipGuard env.tick currentSl newSl then ⟨[], [], none, false⟩
  else if cfg.dryRun then
    ⟨[⟨pos.symbol, pos.side, MsgKind.simulated (currentSl.getD 0) newSl⟩], [], none, true⟩
  else
    ⟨[⟨pos.symbol, pos.side, MsgKind.updated (currentSl.getD 0) newSl⟩],
      env.orders, some newSl, true⟩

/-- The target-stop computation of the loop body (`new_sl`): the
lock-profit trail formula (activation already checked by the caller),
or the stepwise advance toward breakeven with its clamp to the
mark-price buffer and directional tick rounding. `none` means the
body hits a `continue` with no message. -/
def computeNewSl (cfg : Config) (side : Side) (liangping mark tick bufferPrice : ℚ)
    (currentSl : Option ℚ) : Option ℚ :=
  if modeIsLockProfit cfg.mode then
    match side with
    | Side.LONG =>
        let trailCandidate := mark * (1 - cfg.trailPct / 100)
        let t1 := max liangping trailCandidate
        let t2 := min t1 (mark - bufferPrice)
        let t3 :=
          match currentSl with
          | some c => if 0 < c then max t2 c else t2
          | none => t2
        some (normalizePriceFloor tick t3)
    | _ =>
        let trailCandidate := mark * (1 + cfg.trailPct / 100)
        let t1 := min liangping trailCandidate
        let t2 := max t1 (mark + bufferPrice)
        let t3 :=
          match currentSl with
          | some c => if 0 < c then min t2 c else t2
          | none => t2
        some (normalizePriceCeil tick t3)
  else
    let stepAmount := max (max (|liangping| * (cfg.stepPct / 100)) tick) 0
    let pre : Option ℚ :=
      match currentSl with
      | none => some liangping
      | some c =>
          if c ≤ 0 then some liangping
          else
            match side with
            | Side.LONG => if liangping ≤ c then none else some (min (c + stepAmount) liangping)
            | Side.SHORT => if c ≤ liangping then none else some (max (c - stepAmount) liangping)
            | Side.BOTH => none
    pre.map fun v =>
      match side with
      | Side.LONG => normalizePriceFloor tick (min v (mark - bufferPrice))
      | _ => normalizePriceCeil tick (max v (mark + bufferPrice))

/-- The loop body from the throttle check onward: throttle skip, order
collection (`env.orders`), lock-profit activation skip, target
computation, and the replace tail. -/
def stepCore (cfg : Config) (pos : Position) (env : PollEnv)
    (liangping bufferPrice profitPct : ℚ) : StepOutcome :=
  if env.nowTs - env.lastTs < cfg.minIntervalSec then ⟨[], [], none, false⟩
  else
    let currentSl := pickCurrentSlPrice pos.side env.orders
    if modeIsLockProfit cfg.mode ∧ profitPct < cfg.activateProfitPct then
      ⟨if cfg.verbose then [⟨pos.symbol, pos.side, MsgKind.activationSkip⟩] else [],
        [], none, false⟩
    else
      match computeNewSl cfg pos.side liangping pos.mark env.tick bufferPrice currentSl with
      | none => ⟨[], [], none, false⟩
      | some newSl => finishReplace cfg pos env currentSl newSl

/-- One iteration of the position loop of `_auto_step_sl_to_breakeven`:
symbol filter, degenerate-price skip, breakeven/buffer gate per side,
then `stepCore`. -/
def autoStepOne (cfg : Config) (pos : Position) (env : PollEnv) : StepOutcome :=
  if filteredOut cfg.symbolsFilter pos.symbol then ⟨[], [], none, false⟩
  else if pos.entry ≤ 0 ∨ pos.mark ≤ 0 then ⟨[], [], none, false⟩
  else
    let liangping := pos.entry
    let bufferPrice := max (env.tick * ((max 0 cfg.bufferTicks : ℤ) : ℚ)) 0
    let profitPct : ℚ :=
      match pos.side with
      | Side.LONG => if 0 < pos.entry then (pos.mark - pos.entry) / pos.entry * 100 else 0
      | Side.SHORT => if 0 < pos.entry then (pos.entry - pos.mark) / pos.entry * 100 else 0
      | Side.BOTH => 0
    match pos.side with
    | Side.LONG =>
        if pos.mark - bufferPrice < liangping then
          ⟨if cfg.verbose then [⟨pos.symbol, Side.LONG, MsgKind.gateSkip⟩] else [],
            [], none, false⟩
        else stepCore cfg pos env liangping bufferPrice profitPct
    | Side.SHORT =>
        if liangping < pos.mark + bufferPrice then
          ⟨if cfg.verbose then [⟨pos.symbol, Side.SHORT, MsgKind.gateSkip⟩] else [],
            [], none, false⟩
        else stepCore cfg pos env liangping bufferPrice profitPct
    | Side.BOTH => ⟨[], [], none, false⟩

/-- One outward exchange write of the whole poll, tagged by key. -/
inductive EAction where
  | cancel (symbol : String) (side : Side) (order : StopOrder)
  | place (symbol : String) (side : Side) (price : ℚ)
deriving DecidableEq

/-- The key an action is for. -/
def eactionKey : EAction → String × Side
  | EAction.cancel s sd _ => (s, sd)
  | EAction.place s sd _ => (s, sd)

/-- The per-poll read oracle: tick size per symbol, collected stop
orders per key, and the poll's wall clock. -/
structure EngineEnv where
  tickOf : String → ℚ
  ordersOf : String → Side → List StopOrder
  nowTs : ℚ

/-- What a whole call of `_auto_step_sl_to_breakeven` does: all
messages, all exchange writes in order, and the final throttle map. -/
structure EngineOutcome where
  messages : List Msg
  actions : List EAction
  lastMap : String × Side → ℚ

/-- The poll data one loop iteration observes for one position: its
symbol's tick size, the collected stop orders for its key, the key's
recorded last update, and the poll clock. -/
def mkPollEnv (eenv : EngineEnv) (last : String × Side → ℚ) (p : Position) : PollEnv :=
  ⟨eenv.tickOf p.symbol, eenv.ordersOf p.symbol p.side, last (p.symbol, p.side), eenv.nowTs⟩

/-- The exchange writes one loop iteration performs, in order: the
cancels then the placement, all tagged with the position's key. -/
def stepActions (p : Position) (o : StepOutcome) : List EAction :=
  o.cancels.map (EAction.cancel p.symbol p.side) ++
    (match o.placed with
     | some q => [EAction.place p.symbol p.side q]
     | none => [])

/-- The throttle map after one loop iteration: set to the poll clock
for the position's key exactly when the iteration recorded it. -/
def nextLast (eenv : EngineEnv) (last : String × Side → ℚ) (p : Position)
    (o : StepOutcome) : String × Side → ℚ :=
  if o.throttleUpdated then Function.update last (p.symbol, p.side) eenv.nowTs else last

/-- `_auto_step_sl_to_breakeven` over the snapshot's position list,
threading the `_last_sl_update_at` throttle map through the loop. -/
def autoStepSl (cfg : Config) (eenv : EngineEnv) :
    List Position → (String × Side → ℚ) → EngineOutcome
  | [], last => ⟨[], [], last⟩
  | p :: rest, last =>
      let o := autoStepOne cfg p (mkPollEnv eenv last p)
      let r := autoStepSl cfg eenv rest (nextLast eenv last p o)
      ⟨o.messages ++ r.messages, stepActions p o ++ r.actions, r.lastMap⟩

/-- A trading filter entry of one symbol, as read from the exchange
info payload (`filterType`, `tickSize`). -/
structure ExchangeFilter where
  filterType : String
  tickSize : Option ℚ
deriving DecidableEq

/-- One symbol entry of the exchange info payload. -/
structure SymbolInfo where
  symbol : String
  filters : List ExchangeFilter
deriving DecidableEq

/-- The exchange info payload (`futures_exchange_info`). -/
structure ExchangeInfo where
  symbols : List SymbolInfo
deriving DecidableEq

/-- The scan in `_get_tick_size`: first matching symbol entry that has
a PRICE_FILTER; a missing `tickSize` value falls back to the "0.01"
literal. -/
def findTickInInfo (info : ExchangeInfo) (symbol : String) : Option ℚ :=
  info.symbols.findSome? fun s =>
    if s.symbol = symbol then
      (s.filters.find? (fun f => f.filterType == "PRICE_FILTER")).map
        (fun f => f.tickSize.getD (1 / 100))
    else none

/-- Lookup in the `_symbol_price_filter_cache` association list. -/
def cacheLookup (cache : List (String × ℚ)) (symbol : String) : Option ℚ :=
  (cache.find? (fun e => e.fst == symbol)).map (fun e => e.snd)

/-- `_get_tick_size`: cached value if present; otherwise consult the
(fallible) exchange-info fetch — a raised fetch error propagates
(`Except.error`), a successful fetch caches either the found tick or
the 0.01 default. The returned pair is (tick, updated cache). -/
def getTickSize (cache : List (String × ℚ)) (fetchInfo : Except Unit ExchangeInfo)
    (symbol : String) : Except Unit (ℚ × List (String × ℚ)) :=
  match cacheLookup cache symbol with
  | some t => Except.ok (t, cache)
  | none =>
      match fetchInfo with
      | Except.error e => Except.error e
      | Except.ok info =>
          match findTickInInfo info symbol with
          | some t => Except.ok (t, (symbol, t) :: cache)
          | none => Except.ok (1 / 100, (symbol, 1 / 100) :: cache)

/-- The decision of one evaluation of the fixed-max-loss progression
variant. -/
inductive FixedMaxLossAction where
  | marketClose (qty : ℚ)
  | replaceStop (price : ℚ)
  | leaveUnchanged
deriving DecidableEq

/-- The signed current loss percent of a position (positive when the
position is under water). -/
def currentLossPct (side : Side) (entry mark : ℚ) : ℚ :=
  match side with
  | Side.LONG => (entry - mark) / entry * 100
  | Side.SHORT => (mark - entry) / entry * 100
  | Side.BOTH => 0

/-- Modelled from the spec: the repository's second monitoring-loop
variant implementing the fixed-max-loss policy (spec §4.4) is not
among the files under `src/` — `src/get_main.py` holds only the
stepwise and trailing lock-profit policies. Following the spec's
words: the target stop is `entry × (1 ∓ max_loss_percent/100)`
directionally rounded; if the current unrealized loss already exceeds
the threshold, the gradual stop path is skipped and an immediate
reduce-only market order for the full remaining quantity is issued;
otherwise the stop is replaced only when the existing one is less
protective than the target by more than one tick, or when exactly one
stop order rests whose price differs from the target by less than a
tick. -/
def fixedMaxLossStep (side : Side) (entry mark qty tick maxLossPct : ℚ)
    (stops : List StopOrder) : FixedMaxLossAction :=
  match side with
  | Side.BOTH => FixedMaxLossAction.leaveUnchanged
  | _ =>
      if maxLossPct < currentLossPct side entry mark then
        FixedMaxLossAction.marketClose qty
      else
        let target :=
          match side with
          | Side.LONG => normalizePriceFloor tick (entry * (1 - maxLossPct / 100))
          | _ => normalizePriceCeil tick (entry * (1 + maxLossPct / 100))
        match pickCurrentSlPrice side stops with
        | none => FixedMaxLossAction.replaceStop target
        | some c =>
            let lessProtective : Bool :=
              match side with
              | Side.LONG => decide (c < target - tick)
              | _ => decide (target + tick < c)
            if lessProtective then
              FixedMaxLossAction.replaceStop target
            else if stops.length = 1 ∧ |c - target| < tick ∧ c ≠ target then
              FixedMaxLossAction.replaceStop target
            else FixedMaxLossAction.leaveUnchanged

/-- Baseline engine configuration used by the concrete scenarios:
stepwise ("breakeven") mode, step 0.05%, 5s throttle, 2 buffer ticks,
real (non-dry) run, no symbol filter, non-verbose. -/
def cfgBase : Config :=
  ⟨0.05, 5, 2, false, none, false, "breakeven", 0.5, 0.5⟩

/-- Scenario position: LONG, entry 100, mark 101. -/
def posStep : Position := ⟨"B", Side.LONG, 100, 101⟩

/-- Scenario position at the buffer boundary: LONG, entry 100,
mark 100.02 (mark − buffer = entry exactly at tick 0.01 × 2). -/
def posBoundary : Position := ⟨"B", Side.LONG, 100, 100.02⟩

/-- Scenario poll data: tick 0.01, no resting stops, throttle clear. -/
def envNoStop : PollEnv := ⟨1/100, [], 0, 100⟩

/-- A resting protective stop at 99.5 for the scenario key. -/
def stopAt995 : StopOrder := ⟨OrderSource.baseOrder, "B", Side.LONG, "STOP_MARKET", 99.5⟩

/-- Scenario poll data with one resting stop at 99.5. -/
def envOneStop : PollEnv := ⟨1/100, [stopAt995], 0, 100⟩

/-- Demo stop lists of the reconciler tie-break scenario. -/
def demoLongStops : List StopOrder :=
  [⟨OrderSource.baseOrder, "B", Side.LONG, "STOP_MARKET", 98⟩,
   ⟨OrderSource.algoOrder, "B", Side.LONG, "STOP", 99⟩,
   ⟨OrderSource.baseOrder, "B", Side.LONG, "STOP_MARKET", 97⟩]

/-- Demo SHORT stop list of the reconciler tie-break scenario. -/
def demoShortStops : List StopOrder :=
  [⟨OrderSource.baseOrder, "B", Side.SHORT, "STOP_MARKET", 102⟩,
   ⟨OrderSource.algoOrder, "B", Side.SHORT, "STOP", 101⟩,
   ⟨OrderSource.baseOrder, "B", Side.SHORT, "STOP_MARKET", 103⟩]

/-- Scenario position with the untradable BOTH side. -/
def posBoth : Position := ⟨"B", Side.BOTH, 100, 101⟩

/-- Verbose variant of the baseline configuration. -/
def cfgVerbose : Config := { cfgBase with verbose := true }

/-- Dry-run variant of the baseline configuration. -/
def cfgDryRun : Config := { cfgBase with dryRun := true }

/-- Scenario poll oracle: tick 0.01 everywhere, no resting orders,
clock at 100. -/
def eenvStd : EngineEnv := ⟨fun _ => 1/100, fun _ _ => [], 100⟩

/-- Scenario poll oracle with the clock at 12 (for the throttle
scenario). -/
def eenvClock12 : EngineEnv := ⟨fun _ => 1/100, fun _ _ => [], 12⟩

/-- A throttle map with every key updated at time 10. -/
def lastTen : String × Side → ℚ := fun _ => 10

/-- A clear throttle map (no key ever updated). -/
def lastZero : String × Side → ℚ := fun _ => 0

theorem le_foldl_max (xs : List ℚ) (a : ℚ) : a ≤ xs.foldl max a := by
  induction xs generalizing a with
  | nil => exact le_refl a
  | cons y ys ih => exact le_trans (le_max_left a y) (ih (max a y))

theorem mem_le_foldl_max (xs : List ℚ) (a x : ℚ) (hx : x ∈ xs) : x ≤ xs.foldl max a := by
  induction xs generalizing a with
  | nil => cases hx
  | cons y ys ih =>
    rcases List.mem_cons.mp hx with h | h
    · subst h
      exact le_trans (le_max_right a x) (le_foldl_max ys _)
    · exact ih _ h

theorem foldl_max_mem (xs : List ℚ) (a : ℚ) : xs.foldl max a = a ∨ xs.foldl max a ∈ xs := by
  induction xs generalizing a with
  | nil => exact Or.inl rfl
  | cons y ys ih =>
    rcases ih (max a y) with h | h
    · rcases max_choice a y with h1 | h1
      · exact Or.inl (by rw [List.foldl_cons, h, h1])
      · exact Or.inr (by rw [List.foldl_cons, h, h1]; exact List.mem_cons_self y ys)
    · exact Or.inr (List.mem_cons_of_mem _ h)

theorem foldl_min_le (xs : List ℚ) (a : ℚ) : xs.foldl min a ≤ a := by
  induction xs generalizing a with
  | nil => exact le_refl a
  | cons y ys ih => exact le_trans (ih (min a y)) (min_le_left a y)

theorem foldl_min_le_mem (xs : List ℚ) (a x : ℚ) (hx : x ∈ xs) : xs.foldl min a ≤ x := by
  induction xs generalizing a with
  | nil => cases hx
  | cons y ys ih =>
    rcases List.mem_cons.mp hx with h | h
    · subst h
      exact le_trans (foldl_min_le ys _) (min_le_right a x)
    · exact ih _ h

theorem foldl_min_mem (xs : List ℚ) (a : ℚ) : xs.foldl min a = a ∨ xs.foldl min a ∈ xs := by
  induction xs generalizing a with
  | nil => exact Or.inl rfl
  | cons y ys ih =>
    rcases ih (min a y) with h | h
    · rcases min_choice a y with h1 | h1
      · exact Or.inl (by rw [List.foldl_cons, h, h1])
      · exact Or.inr (by rw [List.foldl_cons, h, h1]; exact List.mem_cons_self y ys)
    · exact Or.inr (List.mem_cons_of_mem _ h)

theorem pyMax_mem {l : List ℚ} {M : ℚ} (h : pyMax l = some M) : M ∈ l := by
  cases l with
  | nil => cases h
  | cons x xs =>
    have hM : xs.foldl max x = M := by
      simpa [pyMax] using h
    rcases foldl_max_mem xs x with h1 | h1
    · rw [← hM, h1]; exact List.mem_cons_self x xs
    · rw [← hM]; exact List.mem_cons_of_mem _ h1

theorem pyMax_isUB {l : List ℚ} {M : ℚ} (h : pyMax l = some M) :
    ∀ x ∈ l, x ≤ M := by
  cases l with
  | nil => cases h
  | cons y ys =>
    have hM : ys.foldl max y = M := by
      simpa [pyMax] using h
    intro x hx
    rcases List.mem_cons.mp hx with h1 | h1
    · subst h1; rw [← hM]; exact le_foldl_max ys x
    · rw [← hM]; exact mem_le_foldl_max ys y x h1

theorem pyMin_mem {l : List ℚ} {m : ℚ} (h : pyMin l = some m) : m ∈ l := by
  cases l with
  | nil => cases h
  | cons x xs =>
    have hm : xs.foldl min x = m := by
      simpa [pyMin] using h
    rcases foldl_min_mem xs x with h1 | h1
    · rw [← hm, h1]; exact List.mem_cons_self x xs
    · rw [← hm]; exact List.mem_cons_of_mem _ h1

theorem pyMin_isLB {l : List ℚ} {m : ℚ} (h : pyMin l = some m) :
    ∀ x ∈ l, m ≤ x := by
  cases l with
  | nil => cases h
  | cons y ys =>
    have hm : ys.foldl min y = m := by
      simpa [pyMin] using h
    intro x hx
    rcases List.mem_cons.mp hx with h1 | h1
    · subst h1; rw [← hm]; exact foldl_min_le ys x
    · rw [← hm]; exact foldl_min_le_mem ys y x h1

theorem pyMax_of_ne_nil {l : List ℚ} (h : l ≠ []) : ∃ M, pyMax l = some M := by
  cases l with
  | nil => exact absurd rfl h
  | cons x xs => exact ⟨xs.foldl max x, rfl⟩

theorem pyMin_of_ne_nil {l : List ℚ} (h : l ≠ []) : ∃ m, pyMin l = some m := by
  cases l with
  | nil => exact absurd rfl h
  | cons x xs => exact ⟨xs.foldl min x, rfl⟩

theorem pickCurrentSlPrice_pos {side : Side} {l : List StopOrder} {c : ℚ}
    (h : pickCurrentSlPrice side l = some c) : 0 < c := by
  unfold pickCurrentSlPrice at h
  set prices := (l.map (fun o => o.stopPrice)).filter (fun q => decide (0 < q)) with hp
  by_cases he : prices.isEmpty
  · rw [if_pos he] at h; cases h
  · rw [if_neg he] at h
    have hmem : c ∈ prices := by
      cases side with
      | LONG => exact pyMax_mem h
      | SHORT => exact pyMin_mem h
      | BOTH => cases h
    have := List.of_mem_filter hmem
    simpa using this

theorem normalizePriceFloor_le {tick : ℚ} (ht : 0 < tick) (p : ℚ) :
    normalizePriceFloor tick p ≤ p := by
  unfold normalizePriceFloor
  rw [if_neg (not_le.mpr ht)]
  have h1 : (⌊p / tick⌋ : ℚ) ≤ p / tick := Int.floor_le _
  calc (⌊p / tick⌋ : ℚ) * tick ≤ (p / tick) * tick :=
        mul_le_mul_of_nonneg_right h1 ht.le
    _ = p := div_mul_cancel₀ p (ne_of_gt ht)

theorem sub_lt_normalizePriceFloor {tick : ℚ} (ht : 0 < tick) (p : ℚ) :
    p - tick < normalizePriceFloor tick p := by
  unfold normalizePriceFloor
  rw [if_neg (not_le.mpr ht)]
  have h1 : p / tick - 1 < (⌊p / tick⌋ : ℚ) := Int.sub_one_lt_floor _
  have h2 : (p / tick - 1) * tick < (⌊p / tick⌋ : ℚ) * tick :=
    mul_lt_mul_of_pos_right h1 ht
  have h3 : (p / tick - 1) * tick = p - tick := by
    rw [sub_mul, one_mul, div_mul_cancel₀ p (ne_of_gt ht)]
  linarith

theorem le_normalizePriceCeil {tick : ℚ} (ht : 0 < tick) (p : ℚ) :
    p ≤ normalizePriceCeil tick p := by
  unfold normalizePriceCeil
  rw [if_neg (not_le.mpr ht)]
  have h1 : p / tick ≤ (⌈p / tick⌉ : ℚ) := Int.le_ceil _
  calc p = (p / tick) * tick := (div_mul_cancel₀ p (ne_of_gt ht)).symm
    _ ≤ (⌈p / tick⌉ : ℚ) * tick := mul_le_mul_of_nonneg_right h1 ht.le

theorem normalizePriceCeil_lt_add {tick : ℚ} (ht : 0 < tick) (p : ℚ) :
    normalizePriceCeil tick p < p + tick := by
  unfold normalizePriceCeil
  rw [if_neg (not_le.mpr ht)]
  have h1 : (⌈p / tick⌉ : ℚ) < p / tick + 1 := Int.ceil_lt_add_one _
  have h2 : (⌈p / tick⌉ : ℚ) * tick < (p / tick + 1) * tick :=
    mul_lt_mul_of_pos_right h1 ht
  have h3 : (p / tick + 1) * tick = p + tick := by
    rw [add_mul, one_mul, div_mul_cancel₀ p (ne_of_gt ht)]
  linarith



theorem skipGuard_false {tick c newSl : ℚ}
    (h : skipGuard tick (some c) newSl = false) (hc : 0 < c) : tick ≤ |newSl - c| := by
  simp only [skipGuard] at h
  split_ifs at h with h1
  push_neg at h1
  exact h1 hc

theorem finishReplace_placed {cfg : Config} {pos : Position} {env : PollEnv}
    {cur : Option ℚ} {newSl T : ℚ}
    (h : (finishReplace cfg pos env cur newSl).placed = some T) :
    T = newSl ∧ skipGuard env.tick cur newSl = false ∧ cfg.dryRun = false := by
  unfold finishReplace at h
  split_ifs at h with h1 h2
  have hsome : some newSl = some T := h
  exact ⟨(Option.some.inj hsome).symm, by simpa using h1, by simpa using h2⟩

theorem autoStepOne_placed {cfg : Config} {pos : Position} {env : PollEnv} {T : ℚ}
    (hp : (autoStepOne cfg pos env).placed = some T) :
    computeNewSl cfg pos.side pos.entry pos.mark env.tick
        (max (env.tick * max 0 (cfg.bufferTicks : ℚ)) 0)
        (pickCurrentSlPrice pos.side env.orders) = some T ∧
    skipGuard env.tick (pickCurrentSlPrice pos.side env.orders) T = false ∧
    ((pos.side = Side.LONG ∧
        pos.entry ≤ pos.mark - max (env.tick * max 0 (cfg.bufferTicks : ℚ)) 0) ∨
      (pos.side = Side.SHORT ∧
        pos.mark + max (env.tick * max 0 (cfg.bufferTicks : ℚ)) 0 ≤ pos.entry)) := by
  obtain ⟨sym, side, entry, mark⟩ := pos
  dsimp only
  cases side with
  | BOTH =>
      simp only [autoStepOne] at hp
      split_ifs at hp
  | LONG =>
      simp only [autoStepOne] at hp
      simp only [Int.cast_max, Int.cast_zero] at hp
      generalize (if 0 < entry then (mark - entry) / entry * 100 else 0 : ℚ) = pp at hp
      split_ifs at hp with hf he hg
      simp only [stepCore] at hp
      split_ifs at hp with hthr hact
      cases hc : computeNewSl cfg Side.LONG entry mark env.tick
          (max (env.tick * max 0 (cfg.bufferTicks : ℚ)) 0)
          (pickCurrentSlPrice Side.LONG env.orders) with
      | none => rw [hc] at hp; simp at hp
      | some ns =>
          rw [hc] at hp
          obtain ⟨hT, hgd, _⟩ := finishReplace_placed hp
          subst hT
          exact ⟨rfl, hgd, Or.inl ⟨rfl, by linarith [not_lt.mp hg]⟩⟩
  | SHORT =>
      simp only [autoStepOne] at hp
      simp only [Int.cast_max, Int.cast_zero] at hp
      generalize (if 0 < entry then (entry - mark) / entry * 100 else 0 : ℚ) = pp at hp
      split_ifs at hp with hf he hg
      simp only [stepCore] at hp
      split_ifs at hp with hthr hact
      cases hc : computeNewSl cfg Side.SHORT entry mark env.tick
          (max (env.tick * max 0 (cfg.bufferTicks : ℚ)) 0)
          (pickCurrentSlPrice Side.SHORT env.orders) with
      | none => rw [hc] at hp; simp at hp
      | some ns =>
          rw [hc] at hp
          obtain ⟨hT, hgd, _⟩ := finishReplace_placed hp
          subst hT
          exact ⟨rfl, hgd, Or.inr ⟨rfl, by linarith [not_lt.mp hg]⟩⟩

theorem floor_ge_of_guard {tick S u T : ℚ} (hu : S ≤ u)
    (hT : T = normalizePriceFloor tick u)
    (hg : skipGuard tick (some S) T = false) (hS : 0 < S) : S ≤ T := by
  by_cases htk : tick ≤ 0
  · rw [hT]; unfold normalizePriceFloor; rw [if_pos htk]; exact hu
  · push_neg at htk
    have h1 : u - tick < T := hT ▸ sub_lt_normalizePriceFloor htk u
    have h2 : tick ≤ |T - S| := skipGuard_false hg hS
    by_contra hcon
    push_neg at hcon
    have h3 : |T - S| = -(T - S) := abs_of_neg (by linarith)
    rw [h3] at h2
    linarith

theorem ceil_le_of_guard {tick S u T : ℚ} (hu : u ≤ S)
    (hT : T = normalizePriceCeil tick u)
    (hg : skipGuard tick (some S) T = false) (hS : 0 < S) : T ≤ S := by
  by_cases htk : tick ≤ 0
  · rw [hT]; unfold normalizePriceCeil; rw [if_pos htk]; exact hu
  · push_neg at htk
    have h1 : T < u + tick := hT ▸ normalizePriceCeil_lt_add htk u
    have h2 : tick ≤ |T - S| := skipGuard_false hg hS
    by_contra hcon
    push_neg at hcon
    have h3 : |T - S| = T - S := abs_of_pos (by linarith)
    rw [h3] at h2
    linarith

theorem computeNewSl_long_ge {cfg : Config} {liangping mark tick B S T : ℚ}
    (hcomp : computeNewSl cfg Side.LONG liangping mark tick B (some S) = some T)
    (hg : liangping ≤ mark - B)
    (hguard : skipGuard tick (some S) T = false)
    (hS : 0 < S) : S ≤ T := by
  simp only [computeNewSl] at hcomp
  by_cases hm : modeIsLockProfit cfg.mode = true
  · rw [if_pos hm, if_pos hS] at hcomp
    exact floor_ge_of_guard (le_max_right _ S) (Option.some.inj hcomp).symm hguard hS
  · rw [if_neg hm, if_neg (not_le.mpr hS)] at hcomp
    by_cases hls : liangping ≤ S
    · rw [if_pos hls] at hcomp
      simp at hcomp
    · rw [if_neg hls] at hcomp
      push_neg at hls
      rcases Option.map_eq_some'.mp hcomp with ⟨v, hv, hfv⟩
      have hveq : v = min (S + max (max (|liangping| * (cfg.stepPct / 100)) tick) 0) liangping :=
        (Option.some.inj hv).symm
      have hstep : (0:ℚ) ≤ max (max (|liangping| * (cfg.stepPct / 100)) tick) 0 :=
        le_max_right _ 0
      have hu : S ≤ min v (mark - B) := by
        refine le_min ?_ (by linarith)
        rw [hveq]
        exact le_min (by linarith) (le_of_lt hls)
      exact floor_ge_of_guard hu hfv.symm hguard hS

theorem computeNewSl_short_le {cfg : Config} {liangping mark tick B S T : ℚ}
    (hcomp : computeNewSl cfg Side.SHORT liangping mark tick B (some S) = some T)
    (hg : mark + B ≤ liangping)
    (hguard : skipGuard tick (some S) T = false)
    (hS : 0 < S) : T ≤ S := by
  simp only [computeNewSl] at hcomp
  by_cases hm : modeIsLockProfit cfg.mode = true
  · rw [if_pos hm, if_pos hS] at hcomp
    exact ceil_le_of_guard (min_le_right _ S) (Option.some.inj hcomp).symm hguard hS
  · rw [if_neg hm, if_neg (not_le.mpr hS)] at hcomp
    by_cases hls : S ≤ liangping
    · rw [if_pos hls] at hcomp
      simp at hcomp
    · rw [if_neg hls] at hcomp
      push_neg at hls
      rcases Option.map_eq_some'.mp hcomp with ⟨v, hv, hfv⟩
      have hveq : v = max (S - max (max (|liangping| * (cfg.stepPct / 100)) tick) 0) liangping :=
        (Option.some.inj hv).symm
      have hstep : (0:ℚ) ≤ max (max (|liangping| * (cfg.stepPct / 100)) tick) 0 :=
        le_max_right _ 0
      have hu : max v (mark + B) ≤ S := by
        refine max_le ?_ (by linarith)
        rw [hveq]
        exact max_le (by linarith) (le_of_lt hls)
      exact ceil_le_of_guard hu hfv.symm hguard hS



theorem computeNewSl_long_le_mark {cfg : Config} {liangping mark tick B T : ℚ}
    {cur : Option ℚ}
    (hcomp : computeNewSl cfg Side.LONG liangping mark tick B cur = some T)
    (ht : 0 < tick)
    (hguard : skipGuard tick cur T = false) : T ≤ mark - B := by
  cases cur with
  | none =>
      simp only [computeNewSl] at hcomp
      by_cases hm : modeIsLockProfit cfg.mode = true
      · rw [if_pos hm] at hcomp
        rw [← (Option.some.inj hcomp)]
        exact le_trans (normalizePriceFloor_le ht _) (min_le_right _ _)
      · rw [if_neg hm] at hcomp
        rcases Option.map_eq_some'.mp hcomp with ⟨v, hv, hfv⟩
        rw [← hfv]
        exact le_trans (normalizePriceFloor_le ht _) (min_le_right _ _)
  | some c =>
      simp only [computeNewSl] at hcomp
      by_cases hm : modeIsLockProfit cfg.mode = true
      · rw [if_pos hm] at hcomp
        by_cases hc0 : 0 < c
        · rw [if_pos hc0] at hcomp
          by_cases hct :
              c ≤ min (max liangping (mark * (1 - cfg.trailPct / 100))) (mark - B)
          · rw [max_eq_left hct] at hcomp
            rw [← (Option.some.inj hcomp)]
            exact le_trans (normalizePriceFloor_le ht _) (min_le_right _ _)
          · rw [max_eq_right (le_of_lt (not_le.mp hct))] at hcomp
            have hT := (Option.some.inj hcomp).symm
            have h1 : T ≤ c := hT ▸ normalizePriceFloor_le ht c
            have h2 : c - tick < T := hT ▸ sub_lt_normalizePriceFloor ht c
            have h3 : tick ≤ |T - c| := skipGuard_false hguard hc0
            have h4 : |T - c| = c - T := by
              rw [abs_sub_comm]
              exact abs_of_nonneg (by linarith)
            linarith
        · rw [if_neg hc0] at hcomp
          rw [← (Option.some.inj hcomp)]
          exact le_trans (normalizePriceFloor_le ht _) (min_le_right _ _)
      · rw [if_neg hm] at hcomp
        rcases Option.map_eq_some'.mp hcomp with ⟨v, hv, hfv⟩
        rw [← hfv]
        exact le_trans (normalizePriceFloor_le ht _) (min_le_right _ _)

theorem computeNewSl_short_ge_mark {cfg : Config} {liangping mark tick B T : ℚ}
    {cur : Option ℚ}
    (hcomp : computeNewSl cfg Side.SHORT liangping mark tick B cur = some T)
    (ht : 0 < tick)
    (hguard : skipGuard tick cur T = false) : mark + B ≤ T := by
  cases cur with
  | none =>
      simp only [computeNewSl] at hcomp
      by_cases hm : modeIsLockProfit cfg.mode = true
      · rw [if_pos hm] at hcomp
        rw [← (Option.some.inj hcomp)]
        exact le_trans (le_max_right _ _) (le_normalizePriceCeil ht _)
      · rw [if_neg hm] at hcomp
        rcases Option.map_eq_some'.mp hcomp with ⟨v, hv, hfv⟩
        rw [← hfv]
        exact le_trans (le_max_right _ _) (le_normalizePriceCeil ht _)
  | some c =>
      simp only [computeNewSl] at hcomp
      by_cases hm : modeIsLockProfit cfg.mode = true
      · rw [if_pos hm] at hcomp
        by_cases hc0 : 0 < c
        · rw [if_pos hc0] at hcomp
          by_cases hct :
              max (min liangping (mark * (1 + cfg.trailPct / 100))) (mark + B) ≤ c
          · rw [min_eq_left hct] at hcomp
            rw [← (Option.some.inj hcomp)]
            exact le_trans (le_max_right _ _) (le_normalizePriceCeil ht _)
          · rw [min_eq_right (le_of_lt (not_le.mp hct))] at hcomp
            have hT := (Option.some.inj hcomp).symm
            have h1 : c ≤ T := hT ▸ le_normalizePriceCeil ht c
            have h2 : T < c + tick := hT ▸ normalizePriceCeil_lt_add ht c
            have h3 : tick ≤ |T - c| := skipGuard_false hguard hc0
            have h4 : |T - c| = T - c := abs_of_nonneg (by linarith)
            linarith
        · rw [if_neg hc0] at hcomp
          rw [← (Option.some.inj hcomp)]
          exact le_trans (le_max_right _ _) (le_normalizePriceCeil ht _)
      · rw [if_neg hm] at hcomp
        rcases Option.map_eq_some'.mp hcomp with ⟨v, hv, hfv⟩
        rw [← hfv]
        exact le_trans (le_max_right _ _) (le_normalizePriceCeil ht _)

/-- Claim C2: the stop progression only tightens — whenever the engine
places a replacement stop T for a position that has an existing
effective stop S (the reconciler's pick), S ≤ T holds for a LONG
position and T ≤ S for a SHORT position; in particular a less
protective target never replaces the stop, in either mode. -/
theorem claim_C2_monotonic_stop (cfg : Config) (pos : Position) (env : PollEnv) (T S : ℚ)
    (hp : (autoStepOne cfg pos env).placed = some T)
    (hs : pickCurrentSlPrice pos.side env.orders = some S) :
    (pos.side = Side.LONG → S ≤ T) ∧ (pos.side = Side.SHORT → T ≤ S) := by
  obtain ⟨hcomp, hguard, hgate⟩ := autoStepOne_placed hp
  rw [hs] at hcomp hguard
  have hS : 0 < S := pickCurrentSlPrice_pos hs
  constructor
  · intro hside
    rw [hside] at hcomp
    rcases hgate with ⟨_, hg⟩ | ⟨hB, _⟩
    · exact computeNewSl_long_ge hcomp hg hguard hS
    · rw [hB] at hside; simp at hside
  · intro hside
    rw [hside] at hcomp
    rcases hgate with ⟨hB, _⟩ | ⟨_, hg⟩
    · rw [hB] at hside; simp at hside
    · exact computeNewSl_short_le hcomp hg hguard hS

/-- Claim C2 witness: LONG, entry 100, mark 101, resting stop 99.5,
stepwise mode — the engine places 99.55 and 99.5 ≤ 99.55. -/
theorem claim_C2_witness :
    ((autoStepOne cfgBase posStep envOneStop).placed = some (99.55 : ℚ) ∧
      pickCurrentSlPrice posStep.side envOneStop.orders = some (99.5 : ℚ)) ∧
    (99.5 : ℚ) ≤ (99.55 : ℚ) := by
  have hm : modeIsLockProfit "breakeven" = false := by decide
  have h1 : (autoStepOne cfgBase posStep envOneStop).placed = some (99.55 : ℚ) := by
    norm_num [autoStepOne, stepCore, finishReplace, computeNewSl, filteredOut,
      pickCurrentSlPrice, pyMax, normalizePriceFloor, skipGuard, hm, abs_of_pos, abs_of_neg,
      cfgBase, posStep, envOneStop, stopAt995]
  have h2 : pickCurrentSlPrice posStep.side envOneStop.orders = some (99.5 : ℚ) := by
    norm_num [pickCurrentSlPrice, pyMax, posStep, envOneStop, stopAt995]
  exact ⟨⟨h1, h2⟩,
    (claim_C2_monotonic_stop cfgBase posStep envOneStop 99.55 99.5 h1 h2).1 rfl⟩

/-- Claim C3 counterexample: the claimed strict bound fails — with
LONG entry 100, mark 100.02, tick 0.01, two buffer ticks and no
resting stop, the engine places the stop exactly at
mark − buffer = 100, not strictly below it. -/
theorem claim_C3_counterexample :
    (autoStepOne cfgBase posBoundary envNoStop).placed = some (100 : ℚ) ∧
    ¬((100 : ℚ) < posBoundary.mark - envNoStop.tick * (cfgBase.bufferTicks : ℚ)) := by
  have hm : modeIsLockProfit "breakeven" = false := by decide
  constructor
  · norm_num [autoStepOne, stepCore, finishReplace, computeNewSl, filteredOut,
      pickCurrentSlPrice, pyMax, normalizePriceFloor, skipGuard, hm,
      cfgBase, posBoundary, envNoStop]
  · norm_num [posBoundary, envNoStop, cfgBase]

/-- Claim C3 (amended): every stop newly placed by the engine for a
LONG position is at or below mark − buffer, and for a SHORT position
at or above mark + buffer (the bound is attained, so "strictly" in
the original claim is weakened to "at or"), for a positive tick and
any buffer_ticks ≥ 0. -/
theorem claim_C3_amended (cfg : Config) (pos : Position) (env : PollEnv) (T : ℚ)
    (ht : 0 < env.tick) (hb : 0 ≤ cfg.bufferTicks)
    (hp : (autoStepOne cfg pos env).placed = some T) :
    (pos.side = Side.LONG → T ≤ pos.mark - env.tick * (cfg.bufferTicks : ℚ)) ∧
    (pos.side = Side.SHORT → pos.mark + env.tick * (cfg.bufferTicks : ℚ) ≤ T) := by
  obtain ⟨hcomp, hguard, hgate⟩ := autoStepOne_placed hp
  have hbq : (0:ℚ) ≤ (cfg.bufferTicks : ℚ) := by exact_mod_cast hb
  have hBeq : max (env.tick * max 0 (cfg.bufferTicks : ℚ)) 0
      = env.tick * (cfg.bufferTicks : ℚ) := by
    rw [max_eq_right hbq, max_eq_left (mul_nonneg ht.le hbq)]
  rw [hBeq] at hcomp
  constructor
  · intro hside
    rw [hside] at hcomp hguard
    exact computeNewSl_long_le_mark hcomp ht hguard
  · intro hside
    rw [hside] at hcomp hguard
    exact computeNewSl_short_ge_mark hcomp ht hguard

/-- Claim C3 witness: the amended bound at the stepwise scenario —
the placed stop 100 is at or below 101 − 0.02. -/
theorem claim_C3_witness :
    ((0:ℚ) < envNoStop.tick ∧ 0 ≤ cfgBase.bufferTicks ∧
      (autoStepOne cfgBase posStep envNoStop).placed = some (100 : ℚ)) ∧
    (100 : ℚ) ≤ posStep.mark - envNoStop.tick * (cfgBase.bufferTicks : ℚ) := by
  have hm : modeIsLockProfit "breakeven" = false := by decide
  have h1 : (autoStepOne cfgBase posStep envNoStop).placed = some (100 : ℚ) := by
    norm_num [autoStepOne, stepCore, finishReplace, computeNewSl, filteredOut,
      pickCurrentSlPrice, pyMax, normalizePriceFloor, skipGuard, hm,
      cfgBase, posStep, envNoStop]
  refine ⟨⟨by norm_num [envNoStop], by norm_num [cfgBase], h1⟩, ?_⟩
  exact (claim_C3_amended cfgBase posStep envNoStop 100
    (by norm_num [envNoStop]) (by norm_num [cfgBase]) h1).1 rfl

/-- Claim C4 counterexample: in the end-to-end stepwise scenario
(LONG entry 100, mark 101, step 0.05%, two 0.01 ticks buffer, no
current stop) the engine places the stop at 100, not at the claimed
100.05. -/
theorem claim_C4_counterexample :
    (autoStepOne cfgBase posStep envNoStop).placed = some (100 : ℚ) ∧
    ((100 : ℚ) ≠ 100.05) := by
  have hm : modeIsLockProfit "breakeven" = false := by decide
  constructor
  · norm_num [autoStepOne, stepCore, finishReplace, computeNewSl, filteredOut,
      pickCurrentSlPrice, pyMax, normalizePriceFloor, skipGuard, hm,
      cfgBase, posStep, envNoStop]
  · norm_num

/-- Claim C4 (amended): in the stepwise scenario with no current stop
the engine sets the initial stop directly to the breakeven price —
min(entry, mark − buffer) = 100 floor-rounded — and places the order
at 100, logging the update. -/
theorem claim_C4_amended :
    (autoStepOne cfgBase posStep envNoStop).placed = some (100 : ℚ) ∧
    (autoStepOne cfgBase posStep envNoStop).messages
      = [⟨"B", Side.LONG, MsgKind.updated 0 100⟩] ∧
    (autoStepOne cfgBase posStep envNoStop).cancels = [] := by
  have hm : modeIsLockProfit "breakeven" = false := by decide
  refine ⟨?_, ?_, ?_⟩ <;>
    norm_num [autoStepOne, stepCore, finishReplace, computeNewSl, filteredOut,
      pickCurrentSlPrice, pyMax, normalizePriceFloor, skipGuard, hm,
      cfgBase, posStep, envNoStop]

/-- Claim C1 (spec-modelled): in fixed-max-loss mode, a position of
either tradable side whose current loss percent exceeds the
configured maximum makes the engine issue an immediate market close
for the full remaining quantity, and it performs no stop-order
replacement for that position. -/
theorem claim_C1_hard_breach (side : Side) (entry mark qty tick maxLossPct : ℚ)
    (stops : List StopOrder)
    (hside : side = Side.LONG ∨ side = Side.SHORT)
    (h : maxLossPct < currentLossPct side entry mark) :
    fixedMaxLossStep side entry mark qty tick maxLossPct stops
        = FixedMaxLossAction.marketClose qty ∧
    ∀ price : ℚ, fixedMaxLossStep side entry mark qty tick maxLossPct stops
        ≠ FixedMaxLossAction.replaceStop price := by
  have hstep : fixedMaxLossStep side entry mark qty tick maxLossPct stops
      = FixedMaxLossAction.marketClose qty := by
    rcases hside with h1 | h1 <;> subst h1 <;>
      simp only [fixedMaxLossStep] <;> rw [if_pos h]
  refine ⟨hstep, ?_⟩
  intro price hcon
  rw [hstep] at hcon
  simp at hcon

/-- Claim C1 witness: LONG, entry 100, mark 99.4, max loss 0.5% —
the loss is 0.6% > 0.5% and the fixed-max-loss engine closes the
full quantity 3 at market. -/
theorem claim_C1_witness :
    ((0.5 : ℚ) < currentLossPct Side.LONG 100 99.4) ∧
    fixedMaxLossStep Side.LONG 100 99.4 3 (1/100) 0.5 []
      = FixedMaxLossAction.marketClose 3 := by
  have h : (0.5 : ℚ) < currentLossPct Side.LONG 100 99.4 := by
    norm_num [currentLossPct]
  exact ⟨h,
    (claim_C1_hard_breach Side.LONG 100 99.4 3 (1/100) 0.5 [] (Or.inl rfl) h).1⟩

theorem autoStepOne_both {cfg : Config} {pos : Position} {env : PollEnv}
    (h : pos.side = Side.BOTH) :
    autoStepOne cfg pos env = ⟨[], [], none, false⟩ := by
  obtain ⟨sym, side, entry, mark⟩ := pos
  dsimp only at h
  subst h
  simp [autoStepOne]

theorem autoStepOne_throttled {cfg : Config} {pos : Position} {env : PollEnv}
    (h : env.nowTs - env.lastTs < cfg.minIntervalSec) :
    (autoStepOne cfg pos env).cancels = [] ∧
    (autoStepOne cfg pos env).placed = none ∧
    (autoStepOne cfg pos env).throttleUpdated = false ∧
    (∀ m ∈ (autoStepOne cfg pos env).messages, m.kind = MsgKind.gateSkip) ∧
    (cfg.verbose = false → (autoStepOne cfg pos env).messages = []) := by
  obtain ⟨sym, side, entry, mark⟩ := pos
  cases side with
  | BOTH =>
      have hb := @autoStepOne_both cfg ⟨sym, Side.BOTH, entry, mark⟩ env rfl
      rw [hb]
      exact ⟨rfl, rfl, rfl, by simp, fun _ => rfl⟩
  | LONG =>
      simp only [autoStepOne]
      split_ifs with hf he hg hv <;>
      first
      | exact ⟨rfl, rfl, rfl, by simp, fun _ => rfl⟩
      | (refine ⟨rfl, rfl, rfl, ?_, ?_⟩
         · intro m hm
           simp at hm
           rw [hm]
         · intro hfv
           rw [hfv] at hv
           cases hv)
      | (simp only [stepCore]
         rw [if_pos h]
         exact ⟨rfl, rfl, rfl, by simp, fun _ => rfl⟩)
  | SHORT =>
      simp only [autoStepOne]
      split_ifs with hf he hg hv <;>
      first
      | exact ⟨rfl, rfl, rfl, by simp, fun _ => rfl⟩
      | (refine ⟨rfl, rfl, rfl, ?_, ?_⟩
         · intro m hm
           simp at hm
           rw [hm]
         · intro hfv
           rw [hfv] at hv
           cases hv)
      | (simp only [stepCore]
         rw [if_pos h]
         exact ⟨rfl, rfl, rfl, by simp, fun _ => rfl⟩)

theorem autoStepOne_msg_tag {cfg : Config} {pos : Position} {env : PollEnv} :
    ∀ m ∈ (autoStepOne cfg pos env).messages, m.symbol = pos.symbol ∧ m.side = pos.side := by
  obtain ⟨sym, side, entry, mark⟩ := pos
  intro m hm
  dsimp only
  cases side with
  | BOTH =>
      rw [@autoStepOne_both cfg ⟨sym, Side.BOTH, entry, mark⟩ env rfl] at hm
      simp at hm
  | LONG =>
      simp only [autoStepOne] at hm
      simp only [Int.cast_max, Int.cast_zero] at hm
      generalize (if 0 < entry then (mark - entry) / entry * 100 else 0 : ℚ) = pp at hm
      split_ifs at hm with hf he hg hv <;>
      first
      | (simp at hm; done)
      | (simp at hm; rw [hm]; exact ⟨rfl, rfl⟩)
      | (simp only [stepCore] at hm
         split_ifs at hm with hthr hact hv2 <;>
         first
         | (simp at hm; done)
         | (simp at hm; rw [hm]; exact ⟨rfl, rfl⟩)
         | (cases hc : computeNewSl cfg Side.LONG entry mark env.tick
                (max (env.tick * max 0 (cfg.bufferTicks : ℚ)) 0)
                (pickCurrentSlPrice Side.LONG env.orders) with
            | none => rw [hc] at hm; simp at hm
            | some ns =>
                rw [hc] at hm
                simp only [finishReplace] at hm
                split_ifs at hm with hsg hdr <;>
                first
                | (simp at hm; done)
                | (simp at hm; rw [hm]; exact ⟨rfl, rfl⟩)))
  | SHORT =>
      simp only [autoStepOne] at hm
      simp only [Int.cast_max, Int.cast_zero] at hm
      generalize (if 0 < entry then (entry - mark) / entry * 100 else 0 : ℚ) = pp at hm
      split_ifs at hm with hf he hg hv <;>
      first
      | (simp at hm; done)
      | (simp at hm; rw [hm]; exact ⟨rfl, rfl⟩)
      | (simp only [stepCore] at hm
         split_ifs at hm with hthr hact hv2 <;>
         first
         | (simp at hm; done)
         | (simp at hm; rw [hm]; exact ⟨rfl, rfl⟩)
         | (cases hc : computeNewSl cfg Side.SHORT entry mark env.tick
                (max (env.tick * max 0 (cfg.bufferTicks : ℚ)) 0)
                (pickCurrentSlPrice Side.SHORT env.orders) with
            | none => rw [hc] at hm; simp at hm
            | some ns =>
                rw [hc] at hm
                simp only [finishReplace] at hm
                split_ifs at hm with hsg hdr <;>
                first
                | (simp at hm; done)
                | (simp at hm; rw [hm]; exact ⟨rfl, rfl⟩)))

theorem stepActions_key {p : Position} {o : StepOutcome} :
    ∀ a ∈ stepActions p o, eactionKey a = (p.symbol, p.side) := by
  intro a ha
  simp only [stepActions] at ha
  rw [List.mem_append] at ha
  rcases ha with ha | ha
  · rcases List.mem_map.mp ha with ⟨x, _, rfl⟩
    rfl
  · cases hpl : o.placed with
    | none => rw [hpl] at ha; simp at ha
    | some q =>
        rw [hpl] at ha
        simp at ha
        rw [ha]
        rfl

theorem stepActions_empty {p : Position} {o : StepOutcome}
    (h1 : o.cancels = []) (h2 : o.placed = none) : stepActions p o = [] := by
  simp [stepActions, h1, h2]

theorem nextLast_apply_ne {eenv : EngineEnv} {last : String × Side → ℚ} {p : Position}
    {o : StepOutcome} {k : String × Side} (hk : (p.symbol, p.side) ≠ k) :
    nextLast eenv last p o k = last k := by
  unfold nextLast
  split_ifs with h1
  · exact Function.update_noteq (Ne.symm hk) _ _
  · rfl

theorem nextLast_noupdate {eenv : EngineEnv} {last : String × Side → ℚ} {p : Position}
    {o : StepOutcome} (h : o.throttleUpdated = false) : nextLast eenv last p o = last := by
  unfold nextLast
  rw [h]
  simp

/-- Claim C10: a position whose side is neither LONG nor SHORT is a
complete no-op for the engine — no cancel or place action and no
message carries the BOTH side across a whole poll — and the two
helpers behave as the claim says: the effective-stop selector returns
nothing for the BOTH side and the stop-placement helper returns an
empty result without an exchange call. -/
theorem claim_C10_both_noop (cfg : Config) (eenv : EngineEnv) (positions : List Position)
    (last : String × Side → ℚ) :
    (∀ a ∈ (autoStepSl cfg eenv positions last).actions, (eactionKey a).2 ≠ Side.BOTH) ∧
    (∀ m ∈ (autoStepSl cfg eenv positions last).messages, m.side ≠ Side.BOTH) ∧
    (∀ orders : List StopOrder, pickCurrentSlPrice Side.BOTH orders = none) ∧
    (∀ tick p : ℚ, placeStopMarketClosePosition tick Side.BOTH p = none) := by
  refine ⟨?_, ?_, ?_, ?_⟩
  · induction positions generalizing last with
    | nil => intro a ha; simp [autoStepSl] at ha
    | cons p rest ih =>
        intro a ha
        simp only [autoStepSl] at ha
        rw [List.mem_append] at ha
        rcases ha with ha | ha
        · by_cases hps : p.side = Side.BOTH
          · rw [stepActions_empty (o := autoStepOne cfg p (mkPollEnv eenv last p))
              (by rw [autoStepOne_both hps]) (by rw [autoStepOne_both hps])] at ha
            simp at ha
          · rw [stepActions_key a ha]
            exact hps
        · exact ih _ a ha
  · induction positions generalizing last with
    | nil => intro m hm; simp [autoStepSl] at hm
    | cons p rest ih =>
        intro m hm
        simp only [autoStepSl] at hm
        rw [List.mem_append] at hm
        rcases hm with hm | hm
        · obtain ⟨_, hside⟩ := autoStepOne_msg_tag m hm
          rw [hside]
          intro hps
          have := @autoStepOne_both cfg p (mkPollEnv eenv last p) hps
          rw [this] at hm
          simp at hm
        · exact ih _ m hm
  · intro orders
    simp [pickCurrentSlPrice]
  · intro tick p
    rfl

/-- Claim C10 witness: a poll over a BOTH position followed by a LONG
position performs exactly the LONG placement, whose key side is not
BOTH. -/
theorem claim_C10_witness :
    (EAction.place "B" Side.LONG 100 ∈
      (autoStepSl cfgBase eenvStd [posBoth, posStep] lastZero).actions) ∧
    (eactionKey (EAction.place "B" Side.LONG 100)).2 ≠ Side.BOTH := by
  have hm : modeIsLockProfit "breakeven" = false := by decide
  have hmem : EAction.place "B" Side.LONG 100 ∈
      (autoStepSl cfgBase eenvStd [posBoth, posStep] lastZero).actions := by
    norm_num [autoStepSl, mkPollEnv, nextLast, stepActions, autoStepOne, stepCore,
      finishReplace, computeNewSl, filteredOut, pickCurrentSlPrice, pyMax,
      normalizePriceFloor, skipGuard, hm, cfgBase, posBoth, posStep, eenvStd, lastZero]
  exact ⟨hmem,
    (claim_C10_both_noop cfgBase eenvStd [posBoth, posStep] lastZero).1 _ hmem⟩

/-- Claim C5 (amended): for a key throttled at evaluation time
(now − last_update < min_interval) the poll performs no cancel and no
place call for that key and emits no message for it when non-verbose;
even when verbose the throttle skip itself is silent — the only
message that can carry a throttled key is the earlier breakeven-gate
verbose skip. -/
theorem claim_C5_throttle (cfg : Config) (eenv : EngineEnv) (positions : List Position)
    (last : String × Side → ℚ) (k : String × Side)
    (h : eenv.nowTs - last k < cfg.minIntervalSec) :
    (∀ a ∈ (autoStepSl cfg eenv positions last).actions, eactionKey a ≠ k) ∧
    (∀ m ∈ (autoStepSl cfg eenv positions last).messages,
        (m.symbol, m.side) = k → m.kind = MsgKind.gateSkip) ∧
    (cfg.verbose = false →
      ∀ m ∈ (autoStepSl cfg eenv positions last).messages, (m.symbol, m.side) ≠ k) := by
  induction positions generalizing last h with
  | nil =>
      refine ⟨?_, ?_, ?_⟩
      · intro a ha; simp [autoStepSl] at ha
      · intro m hm; simp [autoStepSl] at hm
      · intro _ m hm; simp [autoStepSl] at hm
  | cons p rest ih =>
      by_cases hk : (p.symbol, p.side) = k
      · have hthr : (mkPollEnv eenv last p).nowTs - (mkPollEnv eenv last p).lastTs
            < cfg.minIntervalSec := by
          simp only [mkPollEnv]
          rw [hk]
          exact h
        obtain ⟨hcan, hpl, hto, hmsgK, hmsgV⟩ :=
          @autoStepOne_throttled cfg p (mkPollEnv eenv last p) hthr
        have hnl : nextLast eenv last p (autoStepOne cfg p (mkPollEnv eenv last p)) = last :=
          nextLast_noupdate hto
        obtain ⟨ih1, ih2, ih3⟩ := ih last h
        refine ⟨?_, ?_, ?_⟩
        · intro a ha
          simp only [autoStepSl, hnl] at ha
          rw [List.mem_append] at ha
          rcases ha with ha | ha
          · rw [stepActions_empty hcan hpl] at ha
            simp at ha
          · exact ih1 a ha
        · intro m hm hmk
          simp only [autoStepSl, hnl] at hm
          rw [List.mem_append] at hm
          rcases hm with hm | hm
          · exact hmsgK m hm
          · exact ih2 m hm hmk
        · intro hv m hm
          simp only [autoStepSl, hnl] at hm
          rw [List.mem_append] at hm
          rcases hm with hm | hm
          · rw [hmsgV hv] at hm
            simp at hm
          · exact ih3 hv m hm
      · have h' : eenv.nowTs -
            nextLast eenv last p (autoStepOne cfg p (mkPollEnv eenv last p)) k
            < cfg.minIntervalSec := by
          rw [nextLast_apply_ne hk]
          exact h
        obtain ⟨ih1, ih2, ih3⟩ := ih _ h'
        refine ⟨?_, ?_, ?_⟩
        · intro a ha
          simp only [autoStepSl] at ha
          rw [List.mem_append] at ha
          rcases ha with ha | ha
          · rw [stepActions_key a ha]
            exact hk
          · exact ih1 a ha
        · intro m hm hmk
          simp only [autoStepSl] at hm
          rw [List.mem_append] at hm
          rcases hm with hm | hm
          · obtain ⟨hs1, hs2⟩ := autoStepOne_msg_tag m hm
            exfalso
            apply hk
            rw [← hmk, hs1, hs2]
          · exact ih2 m hm hmk
        · intro hv m hm
          simp only [autoStepSl] at hm
          rw [List.mem_append] at hm
          rcases hm with hm | hm
          · obtain ⟨hs1, hs2⟩ := autoStepOne_msg_tag m hm
            rw [hs1, hs2]
            exact hk
          · exact ih3 hv m hm

/-- Claim C5 counterexample: with verbose on, a throttled key
(now 12, last update 10, min interval 5) past its breakeven gate gets
no skip message at all — the claim's "a skip message when verbose"
fails — while the identical poll without the throttle places an
order, showing the move was favorable. -/
theorem claim_C5_counterexample :
    (eenvClock12.nowTs - lastTen ("B", Side.LONG) < cfgVerbose.minIntervalSec) ∧
    cfgVerbose.verbose = true ∧
    (autoStepSl cfgVerbose eenvClock12 [posStep] lastTen).messages = [] ∧
    (autoStepSl cfgVerbose eenvClock12 [posStep] lastTen).actions = [] ∧
    (autoStepSl cfgVerbose eenvClock12 [posStep] lastZero).actions
      = [EAction.place "B" Side.LONG 100] := by
  have hm : modeIsLockProfit "breakeven" = false := by decide
  refine ⟨?_, rfl, ?_, ?_, ?_⟩
  · norm_num [eenvClock12, lastTen, cfgVerbose, cfgBase]
  · norm_num [autoStepSl, mkPollEnv, nextLast, stepActions, autoStepOne, stepCore,
      finishReplace, computeNewSl, filteredOut, pickCurrentSlPrice, pyMax,
      normalizePriceFloor, skipGuard, hm, cfgVerbose, cfgBase, posStep, eenvClock12, lastTen]
  · norm_num [autoStepSl, mkPollEnv, nextLast, stepActions, autoStepOne, stepCore,
      finishReplace, computeNewSl, filteredOut, pickCurrentSlPrice, pyMax,
      normalizePriceFloor, skipGuard, hm, cfgVerbose, cfgBase, posStep, eenvClock12, lastTen]
  · norm_num [autoStepSl, mkPollEnv, nextLast, stepActions, autoStepOne, stepCore,
      finishReplace, computeNewSl, filteredOut, pickCurrentSlPrice, pyMax,
      normalizePriceFloor, skipGuard, hm, cfgVerbose, cfgBase, posStep, eenvClock12, lastZero]

/-- Claim C5 witness: the amended throttle property applied at the
concrete throttled scenario — no action carries the throttled key. -/
theorem claim_C5_witness :
    (eenvClock12.nowTs - lastTen ("B", Side.LONG) < cfgBase.minIntervalSec) ∧
    ∀ a ∈ (autoStepSl cfgBase eenvClock12 [posStep] lastTen).actions,
      eactionKey a ≠ ("B", Side.LONG) := by
  have h : eenvClock12.nowTs - lastTen ("B", Side.LONG) < cfgBase.minIntervalSec := by
    norm_num [eenvClock12, lastTen, cfgBase]
  exact ⟨h,
    (claim_C5_throttle cfgBase eenvClock12 [posStep] lastTen ("B", Side.LONG) h).1⟩

theorem finishReplace_dry (cfg : Config) (pos : Position) (env : PollEnv)
    (cur : Option ℚ) (newSl : ℚ) :
    (finishReplace { cfg with dryRun := true } pos env cur newSl).cancels = [] ∧
    (finishReplace { cfg with dryRun := true } pos env cur newSl).placed = none ∧
    ((finishReplace { cfg with dryRun := true } pos env cur newSl).throttleUpdated
      = (finishReplace { cfg with dryRun := false } pos env cur newSl).throttleUpdated) ∧
    ∀ T : ℚ, (finishReplace { cfg with dryRun := false } pos env cur newSl).placed = some T ↔
      ∃ c, Msg.mk pos.symbol pos.side (MsgKind.simulated c T) ∈
        (finishReplace { cfg with dryRun := true } pos env cur newSl).messages := by
  simp only [finishReplace]
  cases hg : skipGuard env.tick cur newSl with
  | true =>
      refine ⟨by simp, by simp, by simp, ?_⟩
      intro T
      simp
  | false =>
      refine ⟨by simp, by simp, by simp, ?_⟩
      intro T
      simp
      exact eq_comm

theorem computeNewSl_dry_irrel (cfg : Config) (b : Bool) (side : Side)
    (liangping mark tick bufferPrice : ℚ) (cur : Option ℚ) :
    computeNewSl { cfg with dryRun := b } side liangping mark tick bufferPrice cur
      = computeNewSl cfg side liangping mark tick bufferPrice cur := rfl

theorem stepCore_dry (cfg : Config) (pos : Position) (env : PollEnv) (lg bp pp : ℚ) :
    (stepCore { cfg with dryRun := true } pos env lg bp pp).cancels = [] ∧
    (stepCore { cfg with dryRun := true } pos env lg bp pp).placed = none ∧
    ((stepCore { cfg with dryRun := true } pos env lg bp pp).throttleUpdated
      = (stepCore { cfg with dryRun := false } pos env lg bp pp).throttleUpdated) ∧
    ∀ T : ℚ, (stepCore { cfg with dryRun := false } pos env lg bp pp).placed = some T ↔
      ∃ c, Msg.mk pos.symbol pos.side (MsgKind.simulated c T) ∈
        (stepCore { cfg with dryRun := true } pos env lg bp pp).messages := by
  simp only [stepCore, computeNewSl_dry_irrel]
  dsimp only
  split_ifs with h1 h2 h3 <;>
  first
  | (refine ⟨rfl, rfl, rfl, ?_⟩
     intro T
     simp)
  | (cases hc : computeNewSl cfg pos.side lg pos.mark env.tick bp
        (pickCurrentSlPrice pos.side env.orders) with
     | none =>
         refine ⟨rfl, rfl, rfl, ?_⟩
         intro T
         simp
     | some ns => exact finishReplace_dry cfg pos env (pickCurrentSlPrice pos.side env.orders) ns)

/-- Claim C8: with dry_run on and otherwise identical inputs, one
engine iteration issues no cancel and no placement, records the
throttle timestamp exactly when the real run would, and its simulated
log message carries exactly the stop price the real run places. -/
theorem claim_C8_dry_run (cfg : Config) (pos : Position) (env : PollEnv) :
    (autoStepOne { cfg with dryRun := true } pos env).cancels = [] ∧
    (autoStepOne { cfg with dryRun := true } pos env).placed = none ∧
    ((autoStepOne { cfg with dryRun := true } pos env).throttleUpdated
      = (autoStepOne { cfg with dryRun := false } pos env).throttleUpdated) ∧
    ∀ T : ℚ, (autoStepOne { cfg with dryRun := false } pos env).placed = some T ↔
      ∃ c, Msg.mk pos.symbol pos.side (MsgKind.simulated c T) ∈
        (autoStepOne { cfg with dryRun := true } pos env).messages := by
  obtain ⟨sym, side, entry, mark⟩ := pos
  cases side with
  | BOTH =>
      rw [@autoStepOne_both { cfg with dryRun := true } ⟨sym, Side.BOTH, entry, mark⟩ env rfl,
        @autoStepOne_both { cfg with dryRun := false } ⟨sym, Side.BOTH, entry, mark⟩ env rfl]
      refine ⟨rfl, rfl, rfl, ?_⟩
      intro T
      simp
  | LONG =>
      simp only [autoStepOne]
      split_ifs with hf he hg hv <;>
      first
      | (refine ⟨rfl, rfl, rfl, ?_⟩
         intro T
         simp)
      | exact stepCore_dry cfg ⟨sym, Side.LONG, entry, mark⟩ env entry _ _
  | SHORT =>
      simp only [autoStepOne]
      split_ifs with hf he hg hv <;>
      first
      | (refine ⟨rfl, rfl, rfl, ?_⟩
         intro T
         simp)
      | exact stepCore_dry cfg ⟨sym, Side.SHORT, entry, mark⟩ env entry _ _

/-- Claim C8 witness: the stepwise scenario — the real run places 100;
the dry run with identical inputs cancels nothing, places nothing,
and logs a simulated message carrying the same 100. -/
theorem claim_C8_witness :
    ((autoStepOne { cfgBase with dryRun := false } posStep envNoStop).placed
      = some (100 : ℚ)) ∧
    (autoStepOne { cfgBase with dryRun := true } posStep envNoStop).cancels = [] ∧
    (autoStepOne { cfgBase with dryRun := true } posStep envNoStop).placed = none ∧
    ∃ c, Msg.mk "B" Side.LONG (MsgKind.simulated c 100) ∈
      (autoStepOne { cfgBase with dryRun := true } posStep envNoStop).messages := by
  have hm : modeIsLockProfit "breakeven" = false := by decide
  have hreal : (autoStepOne { cfgBase with dryRun := false } posStep envNoStop).placed
      = some (100 : ℚ) := by
    norm_num [autoStepOne, stepCore, finishReplace, computeNewSl, filteredOut,
      pickCurrentSlPrice, pyMax, normalizePriceFloor, skipGuard, hm,
      cfgBase, posStep, envNoStop]
  obtain ⟨h1, h2, _, h4⟩ := claim_C8_dry_run cfgBase posStep envNoStop
  exact ⟨hreal, h1, h2, (h4 100).mp hreal⟩

/-- Claim C6: for a non-empty candidate list (candidates have positive
stop prices by the reconciler's construction) the effective current
stop is the maximum candidate price for LONG and the minimum for
SHORT; in particular LONG stops [98, 99, 97] give 99 and SHORT stops
[102, 101, 103] give 101. -/
theorem claim_C6_effective_stop (orders : List StopOrder)
    (h1 : orders ≠ []) (h2 : ∀ o ∈ orders, 0 < o.stopPrice) :
    (∃ M, pickCurrentSlPrice Side.LONG orders = some M ∧
        M ∈ orders.map (fun o => o.stopPrice) ∧
        ∀ q ∈ orders.map (fun o => o.stopPrice), q ≤ M) ∧
    (∃ m, pickCurrentSlPrice Side.SHORT orders = some m ∧
        m ∈ orders.map (fun o => o.stopPrice) ∧
        ∀ q ∈ orders.map (fun o => o.stopPrice), m ≤ q) ∧
    pickCurrentSlPrice Side.LONG demoLongStops = some 99 ∧
    pickCurrentSlPrice Side.SHORT demoShortStops = some 101 := by
  have hfil : (orders.map (fun o => o.stopPrice)).filter (fun q => decide (0 < q))
      = orders.map (fun o => o.stopPrice) := by
    apply List.filter_eq_self.mpr
    intro q hq
    rcases List.mem_map.mp hq with ⟨o, ho, rfl⟩
    exact decide_eq_true (h2 o ho)
  have hne : orders.map (fun o => o.stopPrice) ≠ [] := by
    intro hcon
    exact h1 (List.map_eq_nil_iff.mp hcon)
  have hEmpty : (orders.map (fun o => o.stopPrice)).isEmpty = false := by
    rcases List.exists_cons_of_ne_nil hne with ⟨a, l, hl⟩
    rw [hl]
    rfl
  refine ⟨?_, ?_, ?_, ?_⟩
  · rcases pyMax_of_ne_nil hne with ⟨M, hM⟩
    refine ⟨M, ?_, pyMax_mem hM, pyMax_isUB hM⟩
    simp only [pickCurrentSlPrice]
    rw [hfil]
    simp [hEmpty, hM]
  · rcases pyMin_of_ne_nil hne with ⟨m, hm⟩
    refine ⟨m, ?_, pyMin_mem hm, pyMin_isLB hm⟩
    simp only [pickCurrentSlPrice]
    rw [hfil]
    simp [hEmpty, hm]
  · norm_num [pickCurrentSlPrice, pyMax, demoLongStops]
  · norm_num [pickCurrentSlPrice, pyMin, demoShortStops]

/-- Claim C6 witness: the tie-break at the demo lists — 99 for the
LONG list and 101 for the SHORT list. -/
theorem claim_C6_witness :
    (demoLongStops ≠ [] ∧ ∀ o ∈ demoLongStops, 0 < o.stopPrice) ∧
    pickCurrentSlPrice Side.LONG demoLongStops = some 99 ∧
    pickCurrentSlPrice Side.SHORT demoShortStops = some 101 := by
  have h1 : demoLongStops ≠ [] := by simp [demoLongStops]
  have h2 : ∀ o ∈ demoLongStops, 0 < o.stopPrice := by
    intro o ho
    simp [demoLongStops] at ho
    rcases ho with h | h | h <;> rw [h] <;> norm_num
  exact ⟨⟨h1, h2⟩, (claim_C6_effective_stop demoLongStops h1 h2).2.2⟩

/-- Claim C7 counterexample: when the exchange-info fetch raises for a
never-seen symbol, `_get_tick_size` does not fall back to 0.01 — the
error propagates out (and nothing is cached). -/
theorem claim_C7_counterexample :
    getTickSize [] (Except.error ()) "N" = Except.error () ∧
    getTickSize [] (Except.error ()) "N"
      ≠ Except.ok ((1/100 : ℚ), [("N", (1/100 : ℚ))]) := by
  refine ⟨rfl, ?_⟩
  intro h
  exact Except.noConfusion h

/-- Claim C7 (amended): when the fetch succeeds but yields no matching
PRICE_FILTER for a never-seen symbol, the tick size falls back to the
0.01 default and is cached, and every later lookup for that symbol
reuses the cached 0.01 without consulting the fetch; a raised fetch
error instead propagates to the caller and caches nothing. -/
theorem claim_C7_cache_default (cache : List (String × ℚ)) (info : ExchangeInfo)
    (symbol : String)
    (h1 : cacheLookup cache symbol = none)
    (h2 : findTickInInfo info symbol = none) :
    getTickSize cache (Except.ok info) symbol
      = Except.ok ((1/100 : ℚ), (symbol, (1/100 : ℚ)) :: cache) ∧
    (∀ fetch2 : Except Unit ExchangeInfo,
      getTickSize ((symbol, (1/100 : ℚ)) :: cache) fetch2 symbol
        = Except.ok ((1/100 : ℚ), (symbol, (1/100 : ℚ)) :: cache)) ∧
    getTickSize cache (Except.error ()) symbol = Except.error () := by
  refine ⟨?_, ?_, ?_⟩
  · simp only [getTickSize, h1, h2]
  · intro fetch2
    have hc : cacheLookup ((symbol, (1/100 : ℚ)) :: cache) symbol = some (1/100 : ℚ) := by
      simp [cacheLookup]
    simp only [getTickSize, hc]
  · simp only [getTickSize, h1]

/-- Claim C7 witness: empty cache, an exchange-info payload with no
symbols — the first call returns and caches 0.01, the second call
returns it from the cache even though its fetch errors. -/
theorem claim_C7_witness :
    (cacheLookup [] "N" = none ∧ findTickInInfo ⟨[]⟩ "N" = none) ∧
    getTickSize [] (Except.ok ⟨[]⟩) "N"
      = Except.ok ((1/100 : ℚ), [("N", (1/100 : ℚ))]) ∧
    getTickSize [("N", (1/100 : ℚ))] (Except.error ()) "N"
      = Except.ok ((1/100 : ℚ), [("N", (1/100 : ℚ))]) := by
  have h1 : cacheLookup [] "N" = none := rfl
  have h2 : findTickInInfo ⟨[]⟩ "N" = none := rfl
  exact ⟨⟨h1, h2⟩, (claim_C7_cache_default [] ⟨[]⟩ "N" h1 h2).1,
    (claim_C7_cache_default [] ⟨[]⟩ "N" h1 h2).2.1 (Except.error ())⟩

/-- Claim C9: price normalization is idempotent for every positive
tick — flooring an already-floored price and ceiling an
already-ceiled price return the same value. -/
theorem claim_C9_idempotent (tick p : ℚ) (h : 0 < tick) :
    normalizePriceFloor tick (normalizePriceFloor tick p) = normalizePriceFloor tick p ∧
    normalizePriceCeil tick (normalizePriceCeil tick p) = normalizePriceCeil tick p := by
  have hne : tick ≠ 0 := ne_of_gt h
  constructor
  · simp only [normalizePriceFloor, if_neg (not_le.mpr h)]
    rw [mul_div_cancel_right₀ _ hne, Int.floor_intCast]
  · simp only [normalizePriceCeil, if_neg (not_le.mpr h)]
    rw [mul_div_cancel_right₀ _ hne, Int.ceil_intCast]

/-- Claim C9 witness: idempotence at tick 0.01 and a price off the
tick grid. -/
theorem claim_C9_witness :
    (0 : ℚ) < 1/100 ∧
    normalizePriceFloor (1/100) (normalizePriceFloor (1/100) (1234567/9999))
      = normalizePriceFloor (1/100) (1234567/9999) ∧
    normalizePriceCeil (1/100) (normalizePriceCeil (1/100) (1234567/9999))
      = normalizePriceCeil (1/100) (1234567/9999) := by
  have h : (0:ℚ) < 1/100 := by norm_num
  exact ⟨h, (claim_C9_idempotent (1/100) (1234567/9999) h).1,
    (claim_C9_idempotent (1/100) (1234567/9999) h).2⟩
